import Mathlib

/-!
Verification of the spaced-repetition scheduler of the vocabulary learning
app (src/index.tsx).  JavaScript numbers holding integer values (SRS levels,
millisecond timestamps from `Date.now()`) are modelled as `Int`; lists model
JS arrays.  The scheduler logic appears twice in the source (the `App`
component is duplicated); both copies are line-for-line identical, so a
single embedding covers both.
-/

/-- `MultipleChoice` record from src/index.tsx. -/
structure MultipleChoice where
  options : List String
  correct_answer : String
  deriving DecidableEq, Repr

/-- `Meaning` record from src/index.tsx: content fields plus the two mutable
scheduling fields `srs_level` and `next_review_date` (a UTC millisecond
timestamp). -/
structure Meaning where
  part_of_speech_english : String
  part_of_speech_arabic : String
  one_word_arabic : String
  explanation_arabic : String
  example_sentence_english : String
  example_sentence_arabic : String
  gap_fill_prompt : String
  gap_fill_full_sentence : String
  gap_fill_full_sentence_arabic : String
  multiple_choice_prompt : String
  multiple_choice_full_sentence : String
  multiple_choice_full_sentence_arabic : String
  multiple_choice : MultipleChoice
  srs_level : Int
  next_review_date : Int
  deriving DecidableEq, Repr

/-- `VocabData` record from src/index.tsx. -/
structure VocabData where
  id : String
  word : String
  meanings : List Meaning
  deriving DecidableEq, Repr

/-- `ReviewItem` record from src/index.tsx. -/
structure ReviewItem where
  word : String
  meaning : Meaning
  meaningIndex : Nat
  wordId : String
  deriving DecidableEq, Repr

/-- `srsIntervalsHours` from src/index.tsx: review intervals in hours,
indexed by mastery level 1..8. -/
def srsIntervalsHours : List Int := [4, 8, 24, 72, 168, 336, 720, 2160]

/-- The maximum mastery level; the source uses `srsIntervalsHours.length`. -/
def maxLevel : Nat := srsIntervalsHours.length

/-- The per-meaning update performed by `handleQuizComplete` in
src/index.tsx on the targeted meaning (the spec calls it `recordOutcome`):
  if correct: `srs_level = Math.min(srs_level + 1, srsIntervalsHours.length)`
  and `next_review_date = now + srsIntervalsHours[srs_level - 1] * 60*60*1000`
  (indexing with the already-updated level);
  if incorrect: `srs_level = Math.max(0, srs_level - 1)` and
  `next_review_date = now + 5 * 60 * 1000`.
`List.getD _ _ 0` stands for the in-range array read `srsIntervalsHours[...]`;
every use below is under hypotheses that keep the index in range. -/
def recordOutcome (m : Meaning) (isCorrect : Bool) (now : Int) : Meaning :=
  if isCorrect then
    let newLevel : Int := min (m.srs_level + 1) (maxLevel : Int)
    let intervalHours : Int := srsIntervalsHours.getD (newLevel - 1).toNat 0
    { m with srs_level := newLevel,
             next_review_date := now + intervalHours * 60 * 60 * 1000 }
  else
    { m with srs_level := max 0 (m.srs_level - 1),
             next_review_date := now + 5 * 60 * 1000 }

/-- A meaning with blank content, used to instantiate theorems at concrete
scheduling states. -/
def blankMeaning (lvl due : Int) : Meaning :=
  { part_of_speech_english := ""
    part_of_speech_arabic := ""
    one_word_arabic := ""
    explanation_arabic := ""
    example_sentence_english := ""
    example_sentence_arabic := ""
    gap_fill_prompt := ""
    gap_fill_full_sentence := ""
    gap_fill_full_sentence_arabic := ""
    multiple_choice_prompt := ""
    multiple_choice_full_sentence := ""
    multiple_choice_full_sentence_arabic := ""
    multiple_choice := { options := [], correct_answer := "" }
    srs_level := lvl
    next_review_date := due }

theorem getD_eq_get_of_lt (l : List Int) (k : Nat) (h : k < l.length) :
    l.getD k 0 = l.get ⟨k, h⟩ := by
  simp [List.getD_eq_getElem?_getD, List.getElem?_eq_getElem h]

theorem srsIntervalsPos (k : Nat) (h : k < srsIntervalsHours.length) :
    0 < srsIntervalsHours.getD k 0 := by
  simp only [srsIntervalsHours, List.length_cons, List.length_nil] at h
  interval_cases k <;> decide

/-- C1: for a meaning with `srs_level` in `[0, maxLevel]`, a correct outcome
yields `srs_level = min (old + 1) maxLevel`, the new level is a valid
1-indexed position into the interval table, `next_review_date` is exactly
`now + srsIntervalsHours[newLevel - 1]` hours (in milliseconds), and a
correct outcome at `maxLevel` saturates at `maxLevel`. -/
theorem recordOutcome_correct_spec (m : Meaning) (now : Int)
    (h0 : 0 ≤ m.srs_level) (h1 : m.srs_level ≤ (maxLevel : Int)) :
    (recordOutcome m true now).srs_level = min (m.srs_level + 1) (maxLevel : Int) ∧
    ((recordOutcome m true now).srs_level - 1).toNat < srsIntervalsHours.length ∧
    (∀ h : ((recordOutcome m true now).srs_level - 1).toNat < srsIntervalsHours.length,
      (recordOutcome m true now).next_review_date =
        now + (srsIntervalsHours.get ⟨((recordOutcome m true now).srs_level - 1).toNat, h⟩)
                * 60 * 60 * 1000) ∧
    (m.srs_level = (maxLevel : Int) → (recordOutcome m true now).srs_level = (maxLevel : Int)) := by
  refine ⟨by simp [recordOutcome], ?_, ?_, ?_⟩
  · simp only [recordOutcome, if_true, maxLevel, srsIntervalsHours] at *
    simp only [List.length_cons, List.length_nil] at *
    omega
  · intro h
    simp only [recordOutcome, if_true] at h ⊢
    rw [← getD_eq_get_of_lt]
  · intro hmax
    simp [recordOutcome, hmax]

theorem recordOutcome_correct_spec_witness :
    (recordOutcome (blankMeaning 2 0) true 100).srs_level =
      min ((blankMeaning 2 0).srs_level + 1) (maxLevel : Int) ∧
    (((recordOutcome (blankMeaning 2 0) true 100).srs_level - 1).toNat <
      srsIntervalsHours.length) := by
  have h := recordOutcome_correct_spec (blankMeaning 2 0) 100 (by decide) (by decide)
  exact ⟨h.1, h.2.1⟩

/-- C2: for a meaning with `srs_level` in `[0, maxLevel]`, an incorrect
outcome yields `srs_level = max (old - 1) 0`, `next_review_date = now + 5`
minutes (in milliseconds) regardless of the resulting level, and an
incorrect outcome at level 0 stays at 0. -/
theorem recordOutcome_incorrect_spec (m : Meaning) (now : Int)
    (h0 : 0 ≤ m.srs_level) (h1 : m.srs_level ≤ (maxLevel : Int)) :
    (recordOutcome m false now).srs_level = max (m.srs_level - 1) 0 ∧
    (recordOutcome m false now).next_review_date = now + 5 * 60 * 1000 ∧
    (m.srs_level = 0 → (recordOutcome m false now).srs_level = 0) := by
  refine ⟨?_, ?_, ?_⟩
  · simp [recordOutcome, max_comm]
  · simp [recordOutcome]
  · intro hz; simp [recordOutcome, hz]

theorem recordOutcome_incorrect_spec_witness :
    (recordOutcome (blankMeaning 3 0) false 100).srs_level =
      max ((blankMeaning 3 0).srs_level - 1) 0 ∧
    (recordOutcome (blankMeaning 3 0) false 100).next_review_date = 100 + 5 * 60 * 1000 := by
  have h := recordOutcome_incorrect_spec (blankMeaning 3 0) 100 (by decide) (by decide)
  exact ⟨h.1, h.2.1⟩

/-- C3: `recordOutcome` preserves the invariant `0 ≤ srs_level ≤ maxLevel`
for either outcome, and always sets `next_review_date` to a timestamp
strictly after `now` (so the due date is re-set whenever the level
changes). -/
theorem recordOutcome_invariant (m : Meaning) (isCorrect : Bool) (now : Int)
    (h0 : 0 ≤ m.srs_level) (h1 : m.srs_level ≤ (maxLevel : Int)) :
    0 ≤ (recordOutcome m isCorrect now).srs_level ∧
    (recordOutcome m isCorrect now).srs_level ≤ (maxLevel : Int) ∧
    now < (recordOutcome m isCorrect now).next_review_date := by
  cases isCorrect with
  | false =>
    refine ⟨?_, ?_, ?_⟩ <;> simp [recordOutcome] <;> omega
  | true =>
    have hk : (min (m.srs_level + 1) (maxLevel : Int) - 1).toNat <
        srsIntervalsHours.length := by
      simp only [maxLevel, srsIntervalsHours, List.length_cons, List.length_nil] at h1 ⊢
      omega
    have hpos := srsIntervalsPos _ hk
    refine ⟨?_, ?_, ?_⟩ <;> simp only [recordOutcome, if_true] <;> omega

theorem recordOutcome_invariant_witness :
    0 ≤ (recordOutcome (blankMeaning 8 0) true 100).srs_level ∧
    (recordOutcome (blankMeaning 8 0) true 100).srs_level ≤ (maxLevel : Int) ∧
    100 < (recordOutcome (blankMeaning 8 0) true 100).next_review_date :=
  recordOutcome_invariant (blankMeaning 8 0) true 100 (by decide) (by decide)

/-- `collectDue` from the spec: the due-collection loop of
`startReviewSession` in src/index.tsx.  For every meaning of every item with
`next_review_date <= now`, it emits a `ReviewItem` carrying the item's word,
the meaning, its index, and the item's id. -/
def collectDue (items : List VocabData) (now : Int) : List ReviewItem :=
  items.flatMap (fun item =>
    (item.meanings.enum.filter (fun p => decide (p.2.next_review_date ≤ now))).map
      (fun p =>
        { word := item.word, meaning := p.2, meaningIndex := p.1, wordId := item.id }))

/-- C4: `collectDue items now` contains a review item exactly when some item
of the collection has a meaning at some index whose `next_review_date` is at
most `now`, and the review item then carries that item's word and id, the
meaning, and its index; in particular no meaning with `next_review_date >
now` ever appears. -/
theorem collectDue_spec (items : List VocabData) (now : Int) (r : ReviewItem) :
    r ∈ collectDue items now ↔
      ∃ item, item ∈ items ∧ ∃ i m, item.meanings[i]? = some m ∧
        m.next_review_date ≤ now ∧
        r = { word := item.word, meaning := m, meaningIndex := i, wordId := item.id } := by
  simp only [collectDue, List.mem_flatMap, List.mem_map, List.mem_filter,
    decide_eq_true_eq]
  constructor
  · rintro ⟨item, hitem, ⟨i, m⟩, ⟨henum, hdue⟩, rfl⟩
    exact ⟨item, hitem, i, m, List.mk_mem_enum_iff_getElem?.mp henum, hdue, rfl⟩
  · rintro ⟨item, hitem, i, m, hget, hdue, rfl⟩
    exact ⟨item, hitem, ⟨i, m⟩, ⟨List.mk_mem_enum_iff_getElem?.mpr hget, hdue⟩, rfl⟩

/-- The priority order used by `startReviewSession`:
`(a, b) => a.meaning.srs_level - b.meaning.srs_level`, i.e. ascending
`srs_level`. -/
def levelLE (a b : ReviewItem) : Prop :=
  a.meaning.srs_level ≤ b.meaning.srs_level

instance : DecidableRel levelLE := fun a b => Int.decLe _ _

instance : IsTotal ReviewItem levelLE := ⟨fun a b => Int.le_total _ _⟩

instance : IsTrans ReviewItem levelLE := ⟨fun _ _ _ => le_trans⟩

/-- The sorting step `allDueMeanings.sort((a, b) => a.meaning.srs_level -
b.meaning.srs_level)` of `startReviewSession`: a stable sort ascending by
`srs_level` (JS `Array.prototype.sort` is stable, as is insertion sort). -/
def prioritize (l : List ReviewItem) : List ReviewItem :=
  List.insertionSort levelLE l

/-- C5: after sorting ascending by `srs_level` and truncating to the first
`cap` entries, every included item's level is at most the level of every
excluded (dropped) item. -/
theorem prioritize_take_le_drop (l : List ReviewItem) (cap : Nat) (x y : ReviewItem)
    (hx : x ∈ (prioritize l).take cap) (hy : y ∈ (prioritize l).drop cap) :
    x.meaning.srs_level ≤ y.meaning.srs_level := by
  have hs : List.Sorted levelLE (prioritize l) := List.sorted_insertionSort levelLE l
  have hp : List.Pairwise levelLE ((prioritize l).take cap ++ (prioritize l).drop cap) := by
    rw [List.take_append_drop]; exact hs
  exact (List.pairwise_append.mp hp).2.2 x hx y hy

theorem prioritize_take_le_drop_witness :
    (({ word := "b", meaning := blankMeaning 1 0, meaningIndex := 0,
        wordId := "idb" } : ReviewItem)).meaning.srs_level ≤
      (({ word := "a", meaning := blankMeaning 5 0, meaningIndex := 0,
          wordId := "ida" } : ReviewItem)).meaning.srs_level :=
  prioritize_take_le_drop
    [{ word := "a", meaning := blankMeaning 5 0, meaningIndex := 0, wordId := "ida" },
     { word := "b", meaning := blankMeaning 1 0, meaningIndex := 0, wordId := "idb" }]
    1
    { word := "b", meaning := blankMeaning 1 0, meaningIndex := 0, wordId := "idb" }
    { word := "a", meaning := blankMeaning 5 0, meaningIndex := 0, wordId := "ida" }
    (by decide) (by decide)

/-- One insertion pass of the shuffle step
`itemsForReview.sort(() => Math.random() - 0.5)` of `startReviewSession`:
a comparison sort whose comparator ignores its arguments and returns a
random sign.  Each comparison consumes one coin (`Math.random() < 0.5` is a
fair coin since `Math.random()` is uniform on `[0, 1)`): `true` places the
incoming element before the element it is compared with, `false` moves past
it.  Returns the new list and the unconsumed coins. -/
def shuffleInsert {α : Type} (x : α) : List α → List Bool → List α × List Bool
  | [], coins => ([x], coins)
  | y :: ys, [] => (x :: y :: ys, [])
  | y :: ys, c :: cs =>
    if c then (x :: y :: ys, cs)
    else
      let r := shuffleInsert x ys cs
      (y :: r.1, r.2)

/-- The full comparator-driven sort over a coin stream. -/
def shuffleSort {α : Type} : List α → List Bool → List α × List Bool
  | [], coins => ([], coins)
  | x :: xs, coins =>
    let r := shuffleSort xs coins
    shuffleInsert x r.1 r.2

/-- The shuffle step of `startReviewSession`, as a function of the coin
stream drawn from `Math.random()`. -/
def shuffleList {α : Type} (coins : List Bool) (l : List α) : List α :=
  (shuffleSort l coins).1

theorem shuffleInsert_perm {α : Type} (x : α) (l : List α) (coins : List Bool) :
    List.Perm (shuffleInsert x l coins).1 (x :: l) := by
  induction l generalizing coins with
  | nil => simp [shuffleInsert]
  | cons y ys ih =>
    cases coins with
    | nil => simp [shuffleInsert]
    | cons c cs =>
      cases c with
      | true => simp [shuffleInsert]
      | false =>
        simp only [shuffleInsert, Bool.false_eq_true, ite_false]
        exact ((ih cs).cons y).trans (List.Perm.swap x y ys)

theorem shuffleList_perm {α : Type} (coins : List Bool) (l : List α) :
    List.Perm (shuffleList coins l) l := by
  unfold shuffleList
  induction l generalizing coins with
  | nil => simp [shuffleSort]
  | cons x xs ih =>
    simp only [shuffleSort]
    exact (shuffleInsert_perm x _ _).trans ((ih _).cons x)

/-- `buildSession` from the spec, parametrized by the session cap: sort the
due items ascending by `srs_level`, truncate to the first `cap`, then apply
the comparator-driven shuffle with the given coin stream. -/
def buildSessionCap (coins : List Bool) (cap : Nat) (l : List ReviewItem) :
    List ReviewItem :=
  shuffleList coins ((prioritize l).take cap)

/-- `buildSession` exactly as in `startReviewSession`: the source fixes the
cap at 10 (`allDueMeanings.slice(0, 10)`). -/
def buildSession (coins : List Bool) (l : List ReviewItem) : List ReviewItem :=
  buildSessionCap coins 10 l

/-- C6: for every coin stream and every input list of due items, the session
has at most `cap` entries (10 in the source) and contains only items of the
input. -/
theorem buildSessionCap_length_subset (coins : List Bool) (cap : Nat)
    (l : List ReviewItem) :
    (buildSessionCap coins cap l).length ≤ cap ∧
    ∀ x, x ∈ buildSessionCap coins cap l → x ∈ l := by
  constructor
  · rw [buildSessionCap, (shuffleList_perm coins ((prioritize l).take cap)).length_eq]
    exact List.length_take_le cap (prioritize l)
  · intro x hx
    rw [buildSessionCap] at hx
    have hx' := (shuffleList_perm coins ((prioritize l).take cap)).mem_iff.mp hx
    have hx'' := List.take_subset cap (prioritize l) hx'
    exact (List.perm_insertionSort levelLE l).mem_iff.mp hx''

theorem buildSessionCap_length_subset_witness :
    ({ word := "a", meaning := blankMeaning 2 0, meaningIndex := 0,
       wordId := "ida" } : ReviewItem) ∈
      [({ word := "a", meaning := blankMeaning 2 0, meaningIndex := 0,
          wordId := "ida" } : ReviewItem)] :=
  (buildSessionCap_length_subset [true] 1
      [{ word := "a", meaning := blankMeaning 2 0, meaningIndex := 0,
         wordId := "ida" }]).2
    { word := "a", meaning := blankMeaning 2 0, meaningIndex := 0, wordId := "ida" }
    (by decide)

/-- C7 (amended): for every coin stream, the session is a permutation of the
first `cap` entries of the prioritized list — priority decides inclusion,
the shuffle only the presentation order. -/
theorem buildSessionCap_perm_take (coins : List Bool) (cap : Nat)
    (l : List ReviewItem) :
    List.Perm (buildSessionCap coins cap l) ((prioritize l).take cap) :=
  shuffleList_perm coins ((prioritize l).take cap)

/-- All coin streams of length `n`. -/
def boolLists : Nat → List (List Bool)
  | 0 => [[]]
  | n + 1 => (boolLists n).flatMap (fun cs => [true :: cs, false :: cs])

/-- The number of coin streams of length `n` on which the shuffle sends `l`
to `target`.  Since each coin is fair and independent, the probability of
`target` is this count divided by `2 ^ n`. -/
def shuffleHits {α : Type} [DecidableEq α] (n : Nat) (l target : List α) : Nat :=
  ((boolLists n).filter (fun cs => decide (shuffleList cs l = target))).length

/-- C7 counterexample: shuffling a 3-element list consumes at most 3 coins,
so the 8 equally likely coin streams of length 3 determine the distribution;
the identity order arises from 2 of the 8 streams while the transposition of
the first two elements arises from only 1, so the permutations are not
equally likely — the shuffle is not uniform. -/
theorem shuffleList_not_uniform :
    shuffleHits 3
        [({ word := "a", meaning := blankMeaning 0 0, meaningIndex := 0,
            wordId := "ida" } : ReviewItem),
         { word := "b", meaning := blankMeaning 1 0, meaningIndex := 0,
           wordId := "idb" },
         { word := "c", meaning := blankMeaning 2 0, meaningIndex := 0,
           wordId := "idc" }]
        [{ word := "a", meaning := blankMeaning 0 0, meaningIndex := 0,
           wordId := "ida" },
         { word := "b", meaning := blankMeaning 1 0, meaningIndex := 0,
           wordId := "idb" },
         { word := "c", meaning := blankMeaning 2 0, meaningIndex := 0,
           wordId := "idc" }] = 2 ∧
    shuffleHits 3
        [({ word := "a", meaning := blankMeaning 0 0, meaningIndex := 0,
            wordId := "ida" } : ReviewItem),
         { word := "b", meaning := blankMeaning 1 0, meaningIndex := 0,
           wordId := "idb" },
         { word := "c", meaning := blankMeaning 2 0, meaningIndex := 0,
           wordId := "idc" }]
        [{ word := "b", meaning := blankMeaning 1 0, meaningIndex := 0,
           wordId := "idb" },
         { word := "a", meaning := blankMeaning 0 0, meaningIndex := 0,
           wordId := "ida" },
         { word := "c", meaning := blankMeaning 2 0, meaningIndex := 0,
           wordId := "idc" }] = 1 := by
  decide

/-- The meanings-array update inside `handleQuizComplete`:
`newMeanings[meaningIndex] = recordOutcome(copy of newMeanings[meaningIndex])`,
every other index left as is. -/
def updateMeanings (meaningIndex : Nat) (isCorrect : Bool) (now : Int) :
    List Meaning → List Meaning
  | [] => []
  | m :: ms =>
    match meaningIndex with
    | 0 => recordOutcome m isCorrect now :: ms
    | j + 1 => m :: updateMeanings j isCorrect now ms

/-- `handleQuizComplete` from src/index.tsx, applied to the collection held
by the caller: a copy-and-replace map that rebuilds only the item whose `id`
matches `wordId`, updating only the meaning at `meaningIndex`. -/
def handleQuizComplete (wordId : String) (meaningIndex : Nat) (isCorrect : Bool)
    (now : Int) (vocabList : List VocabData) : List VocabData :=
  vocabList.map (fun item =>
    if item.id = wordId then
      { item with meanings := updateMeanings meaningIndex isCorrect now item.meanings }
    else item)

theorem updateMeanings_getElem?_ne (idx : Nat) (c : Bool) (now : Int)
    (ms : List Meaning) (j : Nat) (h : j ≠ idx) :
    (updateMeanings idx c now ms)[j]? = ms[j]? := by
  induction ms generalizing idx j with
  | nil => cases idx <;> simp [updateMeanings]
  | cons m ms ih =>
    cases idx with
    | zero =>
      cases j with
      | zero => exact absurd rfl h
      | succ j => simp [updateMeanings]
    | succ i =>
      cases j with
      | zero => simp [updateMeanings]
      | succ j =>
        simp only [updateMeanings, List.getElem?_cons_succ]
        exact ih i j (fun hji => h (by omega))

/-- C8: `handleQuizComplete` is a pure copy-and-replace with no effect
outside the targeted meaning: items whose id differs from `wordId` are
unchanged; in the matching item every meaning at an index other than
`meaningIndex` is unchanged and the item keeps its id and word; the updated
meaning is the old one with only `srs_level` and `next_review_date`
replaced; and when no item matches `wordId` the whole collection is
returned unchanged. -/
theorem handleQuizComplete_frame (wordId : String) (meaningIndex : Nat)
    (isCorrect : Bool) (now : Int) (items : List VocabData) :
    (∀ (k : Nat) (item : VocabData), items[k]? = some item → item.id ≠ wordId →
      (handleQuizComplete wordId meaningIndex isCorrect now items)[k]? = some item) ∧
    (∀ (k j : Nat) (item : VocabData), items[k]? = some item → item.id = wordId →
      j ≠ meaningIndex →
      ∃ item',
        (handleQuizComplete wordId meaningIndex isCorrect now items)[k]? = some item' ∧
        item'.id = item.id ∧ item'.word = item.word ∧
        item'.meanings[j]? = item.meanings[j]?) ∧
    (∀ m, recordOutcome m isCorrect now =
      { m with srs_level := (recordOutcome m isCorrect now).srs_level,
               next_review_date := (recordOutcome m isCorrect now).next_review_date }) ∧
    ((∀ item ∈ items, item.id ≠ wordId) →
      handleQuizComplete wordId meaningIndex isCorrect now items = items) := by
  refine ⟨?_, ?_, ?_, ?_⟩
  · intro k item hk hid
    simp only [handleQuizComplete, List.getElem?_map, hk, Option.map_some]
    simp [hid]
  · intro k j item hk hid hj
    refine ⟨{ item with
        meanings := updateMeanings meaningIndex isCorrect now item.meanings }, ?_, rfl, rfl, ?_⟩
    · simp only [handleQuizComplete, List.getElem?_map, hk, Option.map_some]
      simp [hid]
    · exact updateMeanings_getElem?_ne meaningIndex isCorrect now item.meanings j hj
  · intro m
    cases isCorrect <;> simp [recordOutcome]
  · intro h
    simp only [handleQuizComplete]
    have hcong : ∀ item ∈ items,
        (if item.id = wordId then
          { item with
            meanings := updateMeanings meaningIndex isCorrect now item.meanings }
         else item) = id item := by
      intro item hitem
      simp [h item hitem]
    rw [List.map_congr_left hcong, List.map_id]

theorem handleQuizComplete_frame_witness :
    (handleQuizComplete "w" 0 true 100
        [{ id := "other", word := "cat", meanings := [blankMeaning 0 0] }])[0]? =
      some { id := "other", word := "cat", meanings := [blankMeaning 0 0] } :=
  (handleQuizComplete_frame "w" 0 true 100
      [{ id := "other", word := "cat", meanings := [blankMeaning 0 0] }]).1
    0 { id := "other", word := "cat", meanings := [blankMeaning 0 0] }
    (by rfl) (by decide)

/-- `isMastered` from the `masteredWords` computation in src/index.tsx:
`word.meanings.every(meaning => meaning.srs_level >= MASTERY_THRESHOLD)`,
with the threshold as a parameter. -/
def isMastered (item : VocabData) (masteryThreshold : Int) : Bool :=
  item.meanings.all (fun m => decide (m.srs_level ≥ masteryThreshold))

/-- `MASTERY_THRESHOLD` from src/index.tsx. -/
def MASTERY_THRESHOLD : Int := 6

/-- `masteredWords` from src/index.tsx: the number of words all of whose
meanings have `srs_level ≥ 6`. -/
def masteredWords (vocabList : List VocabData) : Nat :=
  (vocabList.filter (fun w => isMastered w MASTERY_THRESHOLD)).length

/-- C9: `isMastered item t` is true exactly when every meaning of the item
has `srs_level ≥ t`; the source applies it with the fixed threshold 6 in
`masteredWords`. -/
theorem isMastered_spec (item : VocabData) (t : Int) :
    isMastered item t = true ↔ ∀ m ∈ item.meanings, m.srs_level ≥ t := by
  simp [isMastered]

/-- A persisted meaning record as loaded from localStorage, before
migration, reduced to the fields the migration inspects:
`multiple_choice_valid` abstracts the check that `m.multiple_choice` is an
object whose `options` is an array; `gap_fill_prompt` and `one_word_arabic`
are `some` exactly when the stored JSON had them as strings; the two
scheduling fields are `some` exactly when the stored record had them
(`'srs_level' in m && 'next_review_date' in m`). -/
structure StoredMeaning where
  multiple_choice_valid : Bool
  gap_fill_prompt : Option String
  one_word_arabic : Option String
  srs_level : Option Int
  next_review_date : Option Int
  deriving DecidableEq, Repr

/-- The per-meaning branch of the localStorage migration effect in
src/index.tsx: malformed records are dropped (`none`), records that already
carry both SRS fields are returned unchanged, and records missing them get
`srs_level = 0`, `next_review_date = Date.now()`. -/
def migrateMeaning (now : Int) (m : StoredMeaning) : Option StoredMeaning :=
  if !m.multiple_choice_valid then none
  else if !(m.gap_fill_prompt.isSome && m.one_word_arabic.isSome) then none
  else if m.srs_level.isSome && m.next_review_date.isSome then some m
  else some { m with srs_level := some 0, next_review_date := some now }

/-- C10: for a content-valid stored meaning, the migration round-trips the
two scheduling fields when both are present (the record is kept verbatim),
and a record missing both scheduling fields is defaulted to
`srs_level = 0`, `next_review_date = now` — returned as `some`, not
rejected. -/
theorem migrateMeaning_spec (now : Int) (m : StoredMeaning)
    (hmc : m.multiple_choice_valid = true)
    (hgf : m.gap_fill_prompt.isSome = true)
    (how : m.one_word_arabic.isSome = true) :
    (m.srs_level.isSome = true → m.next_review_date.isSome = true →
      migrateMeaning now m = some m) ∧
    (m.srs_level = none → m.next_review_date = none →
      migrateMeaning now m =
        some { m with srs_level := some 0, next_review_date := some now }) := by
  constructor
  · intro h1 h2
    simp [migrateMeaning, hmc, hgf, how, h1, h2]
  · intro h1 h2
    simp [migrateMeaning, hmc, hgf, how, h1, h2]

theorem migrateMeaning_spec_witness :
    migrateMeaning 100
        { multiple_choice_valid := true, gap_fill_prompt := some "p",
          one_word_arabic := some "w", srs_level := some 4,
          next_review_date := some 50 } =
      some { multiple_choice_valid := true, gap_fill_prompt := some "p",
             one_word_arabic := some "w", srs_level := some 4,
             next_review_date := some 50 } ∧
    migrateMeaning 100
        { multiple_choice_valid := true, gap_fill_prompt := some "p",
          one_word_arabic := some "w", srs_level := none,
          next_review_date := none } =
      some { multiple_choice_valid := true, gap_fill_prompt := some "p",
             one_word_arabic := some "w", srs_level := some 0,
             next_review_date := some 100 } := by
  constructor
  · exact (migrateMeaning_spec 100
        { multiple_choice_valid := true, gap_fill_prompt := some "p",
          one_word_arabic := some "w", srs_level := some 4,
          next_review_date := some 50 }
        (by decide) (by decide) (by decide)).1 (by decide) (by decide)
  · exact (migrateMeaning_spec 100
        { multiple_choice_valid := true, gap_fill_prompt := some "p",
          one_word_arabic := some "w", srs_level := none,
          next_review_date := none }
        (by decide) (by decide) (by decide)).2 rfl rfl
